import Mathlib

/-!
Verification development for the gcsreferential provider's coordination and
allocation core: the object-store gateway (conditional writes keyed by
generation), the lock protocol, the generation-validated pool cache, the
ID-pool allocator, and the CIDR allocator.  Go maps are embedded as
association lists, machine integers as Int/Nat, and the GCS object store as
an explicit value of type Option (content × generation).
-/

/-! ### Association-list embedding of Go maps (string keys) -/

/-- Lookup in a Go map embedded as an association list (first matching key). -/
def mlookup {α : Type} (ms : List (String × α)) (k : String) : Option α :=
  match ms with
  | [] => none
  | (k1, v) :: tl => if k1 = k then some v else mlookup tl k

/-- Go map assignment m[k] = v: replace the binding of k when present, else add it. -/
def msetKey {α : Type} (ms : List (String × α)) (k : String) (v : α) : List (String × α) :=
  match ms with
  | [] => [(k, v)]
  | (k1, v1) :: tl => if k1 = k then (k, v) :: tl else (k1, v1) :: msetKey tl k v

/-- Go builtin delete(m, k): remove the binding of k. -/
def mdelete {α : Type} (ms : List (String × α)) (k : String) : List (String × α) :=
  match ms with
  | [] => []
  | (k1, v1) :: tl => if k1 = k then mdelete tl k else (k1, v1) :: mdelete tl k

/-- The values of an embedded Go map. -/
def mvalues {α : Type} (ms : List (String × α)) : List α :=
  ms.map Prod.snd

theorem mlookup_msetKey_self {α : Type} (ms : List (String × α)) (k : String) (v : α) :
    mlookup (msetKey ms k v) k = some v := by
  induction ms with
  | nil => simp [msetKey, mlookup]
  | cons hd tl ih =>
    obtain ⟨k1, v1⟩ := hd
    by_cases h : k1 = k
    · simp [msetKey, h, mlookup]
    · simp [msetKey, h, mlookup, ih]

theorem mlookup_msetKey_other {α : Type} (ms : List (String × α)) (k k2 : String) (v : α)
    (hne : k2 ≠ k) : mlookup (msetKey ms k v) k2 = mlookup ms k2 := by
  have hne2 : ¬(k = k2) := fun h => hne h.symm
  induction ms with
  | nil => simp [msetKey, mlookup, hne2]
  | cons hd tl ih =>
    obtain ⟨k1, v1⟩ := hd
    by_cases h : k1 = k
    · subst h
      simp [msetKey, mlookup, hne2]
    · simp [msetKey, h, mlookup, ih]

theorem mlookup_mdelete_self {α : Type} (ms : List (String × α)) (k : String) :
    mlookup (mdelete ms k) k = none := by
  induction ms with
  | nil => simp [mdelete, mlookup]
  | cons hd tl ih =>
    obtain ⟨k1, v1⟩ := hd
    by_cases h : k1 = k
    · simp [mdelete, h, ih]
    · simp [mdelete, h, mlookup, ih]

theorem mlookup_mdelete_other {α : Type} (ms : List (String × α)) (k k2 : String)
    (hne : k2 ≠ k) : mlookup (mdelete ms k) k2 = mlookup ms k2 := by
  have hne2 : ¬(k = k2) := fun h => hne h.symm
  induction ms with
  | nil => simp [mdelete, mlookup]
  | cons hd tl ih =>
    obtain ⟨k1, v1⟩ := hd
    by_cases h : k1 = k
    · subst h
      simp [mdelete, mlookup, hne2, ih]
    · by_cases h2 : k1 = k2
      · subst h2
        simp [mdelete, h, mlookup, hne]
      · simp [mdelete, h, h2, mlookup, ih]

theorem mlookup_mem {α : Type} (ms : List (String × α)) (k : String) (v : α)
    (h : mlookup ms k = some v) : (k, v) ∈ ms := by
  induction ms with
  | nil => simp [mlookup] at h
  | cons hd tl ih =>
    obtain ⟨k1, v1⟩ := hd
    by_cases hk : k1 = k
    · subst hk
      simp [mlookup] at h
      simp [h]
    · simp [mlookup, hk] at h
      exact List.mem_cons_of_mem _ (ih h)

theorem mem_mvalues_of_mlookup {α : Type} (ms : List (String × α)) (k : String) (v : α)
    (h : mlookup ms k = some v) : v ∈ mvalues ms := by
  have := mlookup_mem ms k v h
  exact List.mem_map.mpr ⟨(k, v), this, rfl⟩

theorem msetKey_absent {α : Type} (ms : List (String × α)) (k : String) (v : α)
    (h : mlookup ms k = none) : msetKey ms k v = ms ++ [(k, v)] := by
  induction ms with
  | nil => simp [msetKey]
  | cons hd tl ih =>
    obtain ⟨k1, v1⟩ := hd
    by_cases hk : k1 = k
    · simp [mlookup, hk] at h
    · simp [mlookup, hk] at h
      simp [msetKey, hk, ih h]

/-! ### The ID-pool allocator

The allocator type lives in the external library idPoolTools; firsthand
source is not in this repository, so its operations are modelled from the
spec (section 4.4).  The JSON wire format (section 6) persists start_from,
end_to and members only; the free set is derived. -/

/-- The in-memory ID pool.  StartFrom, EndTo and Members mirror the
persisted fields; Free is the derived free set. -/
structure IDPool where
  StartFrom : Int
  EndTo : Int
  Members : List (String × Int)
  Free : Finset Int
deriving DecidableEq

/-- Modelled from the spec: idPoolTools.NewIDPool (section 4.4 Construction):
members empty, free set = all ids in the range. -/
def NewIDPool (s e : Int) : IDPool :=
  ⟨s, e, [], Finset.Icc s e⟩

/-- Modelled from the spec: idPoolTools Remove, used during reconciliation and
range shrinking: take an id out of the free set. -/
def IDPool.Remove (p : IDPool) (i : Int) : IDPool :=
  { p with Free := p.Free.erase i }

/-- Modelled from the spec: idPoolTools Insert, used during range growing:
put an id into the free set. -/
def IDPool.Insert (p : IDPool) (i : Int) : IDPool :=
  { p with Free := insert i p.Free }

/-- Modelled from the spec: idPoolTools IsValid checks the range invariant. -/
def IDPool.IsValid (p : IDPool) : Bool :=
  decide (p.StartFrom ≤ p.EndTo)

/-- Modelled from the spec: idPoolTools AllocateID (section 4.4): none when the
owner key is already present or the free set is empty (the NoID sentinel);
otherwise move any free id (modelled as the least one) into members. -/
def IDPool.AllocateID (p : IDPool) (k : String) : Option (Int × IDPool) :=
  match mlookup p.Members k with
  | some _ => none
  | none =>
    if h : p.Free.Nonempty then
      let i := p.Free.min' h
      some (i, { p with Members := msetKey p.Members k i, Free := p.Free.erase i })
    else none

/-- The persisted shape of a pool object: the JSON wire format keeps
start_from, end_to and members; the free set is not persisted (section 6). -/
structure SerPool where
  start_from : Int
  end_to : Int
  members : List (String × Int)
deriving DecidableEq

/-- JSON marshalling of a pool: project the persisted fields. -/
def serializePool (p : IDPool) : SerPool :=
  ⟨p.StartFrom, p.EndTo, p.Members⟩

/-- Reconciliation as performed by getAndCacheIdPool (src/unnamed/part_004
lines 54-60): build a fresh allocator for the range, Remove each allocated id
from its free set, then restore members verbatim. -/
def reconcilePool (sp : SerPool) : IDPool :=
  let base := NewIDPool sp.start_from sp.end_to
  let removed := sp.members.foldl (fun q kv => q.Remove kv.2) base
  { removed with Members := sp.members }

/-! ### ObjectStore gateway (package connector)

A regular object is embedded as Option (content × generation); none means
the object does not exist.  Transport failures are not modelled: every store
call reaches the store. -/

/-- The precondition attached by connector.Write
(src/internal/provider/provider.go lines 139-143). -/
inductive WriteCond
| doesNotExist
| genMatch (g : Int)
deriving DecidableEq

/-- Which write precondition the gateway picks for a handle generation. -/
def writeCondition (gen : Int) : WriteCond :=
  if gen = -1 then .doesNotExist else .genMatch gen

/-- Whether the store accepts a conditional write of an object under a
precondition (GCS Conditions semantics: DoesNotExist and GenerationMatch). -/
def condHolds {α : Type} : WriteCond → Option (α × Int) → Bool
  | .doesNotExist, none => true
  | .doesNotExist, some _ => false
  | .genMatch g, some (_, g2) => decide (g2 = g)
  | .genMatch _, none => false

/-- connector.Write (provider.go lines 129-160): a conditional write that uses
DoesNotExist when the handle generation is -1 and GenerationMatch otherwise;
newGen is the generation the store assigns to the new object version.  Returns
some (new handle generation, new object) on success, none on precondition
failure (Conflict). -/
def connectorWrite {α : Type} (handleGen : Int) (v : α) (obj : Option (α × Int))
    (newGen : Int) : Option (Int × Option (α × Int)) :=
  if handleGen = -1 then
    match obj with
    | none => some (newGen, some (v, newGen))
    | some _ => none
  else
    match obj with
    | some (_, g2) => if g2 = handleGen then some (newGen, some (v, newGen)) else none
    | none => none

/-- Outcome of connector.Unlock. -/
inductive UnlockResult
| deleted
| staleLock
| notFound
deriving DecidableEq

/-- connector.Unlock (provider.go lines 220-254): read the lock object; when
its body equals the canonical string of the held lock id, delete it; when the
body differs, delete nothing and return an error; when the object is absent
the initial Attrs call fails and nothing is deleted.  The lock object is
embedded as Option String (its body); lockId is the canonical UUID string of
the holder.  Returns the lock object after the call and the outcome. -/
def connectorUnlock (lockObj : Option String) (lockId : String) :
    Option String × UnlockResult :=
  match lockObj with
  | none => (none, .notFound)
  | some body => if body = lockId then (none, .deleted) else (some body, .staleLock)

/-! ### Lock id reading and the backoff loop -/

/-- Hexadecimal digit test matching the byte table used by google/uuid. -/
def isHexChar (c : Char) : Bool :=
  (('0' ≤ c) && (c ≤ '9')) || (('a' ≤ c) && (c ≤ 'f')) || (('A' ≤ c) && (c ≤ 'F'))

/-- Canonical 36-character UUID layout: hyphens at offsets 8, 13, 18, 23 and
hexadecimal digits everywhere else. -/
def canonical36 (cs : List Char) : Bool :=
  (cs.length = 36 : Bool) &&
    (List.range 36).all (fun i =>
      match cs.get? i with
      | none => false
      | some c =>
        if i = 8 ∨ i = 13 ∨ i = 18 ∨ i = 23 then c = '-' else isHexChar c)

/-- The string forms accepted by uuid.Parse from github.com/google/uuid:
canonical (36 chars), braced (38), urn-prefixed (45), and bare 32 hex chars;
every other body makes Parse fail, hence uuid.MustParse panic. -/
def goUuidParses (s : String) : Bool :=
  let cs := s.data
  if cs.length = 36 then canonical36 cs
  else if cs.length = 38 then
    (cs.take 1 = ['{'] : Bool) && (cs.drop 37 = ['}'] : Bool) &&
      canonical36 ((cs.drop 1).take 36)
  else if cs.length = 45 then
    (String.mk (cs.take 9) = "urn:uuid:" : Bool) && canonical36 (cs.drop 9)
  else if cs.length = 32 then cs.all isHexChar
  else false

/-- Outcome of connector.GetCurrentLockId. -/
inductive LockReadResult
| readError
| ok (body : String)
| panicked
deriving DecidableEq

/-- connector.GetCurrentLockId (provider.go lines 257-280): when the lock
object is absent the reader creation fails and an error is returned; when it
exists the body is fed to uuid.MustParse, which panics unless the body is a
string uuid.Parse accepts.  WaitForlock calls this on every iteration. -/
def GetCurrentLockId (lockObj : Option String) : LockReadResult :=
  match lockObj with
  | none => .readError
  | some body => if goUuidParses body then .ok body else .panicked

/-- Nanoseconds per second; Go time.Duration counts nanoseconds in an int64. -/
def nsPerSec : Int := 1000000000

/-- The base backoff of iteration n in connector.WaitForlock (provider.go
lines 315-319): n seconds capped at 10 seconds. -/
def baseBackoff (n : Nat) : Int :=
  min ((n : Int) * nsPerSec) (10 * nsPerSec)

/-- One backoff pause of connector.WaitForlock (provider.go lines 314-339).
jitter is the draw of rand.Int63n(base/2), a value in [0, base/2); remaining
is timeout minus the time elapsed so far.  The computed sleepTime is
base - base/4 + jitter, clamped to remaining; when the clamped value is not
positive the loop returns the TIMEOUT error (none).  Otherwise the select
waits sleepTime on the time.After timer and the case body then calls
time.Sleep(sleepTime) again, so the iteration actually sleeps 2 * sleepTime
(returned as some). -/
def iterationSleep (n : Nat) (jitter : Int) (remaining : Int) : Option Int :=
  let base := baseBackoff n
  let sleepTime := base - base / 4 + jitter
  let clamped := if sleepTime > remaining then remaining else sleepTime
  if clamped ≤ 0 then none else some (2 * clamped)

/-! ### The pool cache -/

/-- A cache entry: the deserialized, reconciled pool and the generation it
was read at. -/
structure CachedIdPool where
  Pool : IDPool
  Generation : Int
deriving DecidableEq

/-- Result of getAndCacheIdPool. -/
inductive CacheGetResult
| notFound
| ok (e : CachedIdPool)
deriving DecidableEq

/-- The remote generation computed by getAndCacheIdPool from GetAttrs:
-1 when the object does not exist. -/
def remoteGeneration (store : Option (SerPool × Int)) : Int :=
  match store with
  | none => -1
  | some (_, g) => g

/-- getAndCacheIdPool (src/unnamed/part_004 lines 18-71) for one pool name:
fetch the remote generation, set the connector generation to it, return the
cached entry when its generation matches, otherwise read and reconcile from
the store (evicting the entry when the object is gone).  The store argument
embeds the GCS pool object; the result triple is (result, cache entry after
the call, connector generation after the call).  Transport failures are not
modelled. -/
def getAndCacheIdPool (store : Option (SerPool × Int)) (cache : Option CachedIdPool) :
    CacheGetResult × Option CachedIdPool × Int :=
  let remoteGen := remoteGeneration store
  match cache with
  | some e =>
    if e.Generation = remoteGen then (.ok e, some e, remoteGen)
    else
      match store with
      | none => (.notFound, none, remoteGen)
      | some (sp, g) =>
        let e2 : CachedIdPool := ⟨reconcilePool sp, g⟩
        (.ok e2, some e2, g)
  | none =>
    match store with
    | none => (.notFound, none, remoteGen)
    | some (sp, g) =>
      let e2 : CachedIdPool := ⟨reconcilePool sp, g⟩
      (.ok e2, some e2, g)

/-! ### Resource operations on pools -/

/-- Outcome of the id_request Create operation. -/
inductive CreateOut
| poolNotFound
| alreadyReserved
| noId
| writeFailed
| created (id : Int)
deriving DecidableEq

/-- id_request Create after lock acquisition
(src/internal/provider/resource_id_request.go lines 104-131): load the pool
through the cache, reject a key already present, allocate, then write the
pool back under the connector generation.  writeOk injects whether the
conditional write succeeds; a failed write leaves the object untouched.
AllocateID mutates the cached pool in place (the Go cache entry and the
local variable alias the same pointer), so the allocation is visible in the
cache entry even when the write fails, while Generation is only refreshed
after a successful write.  On success the store assigns the next generation,
embedded as connector generation + 1.  Returns (outcome, store after, cache
entry after). -/
def idRequestCreate (key : String) (store : Option (SerPool × Int))
    (cache : Option CachedIdPool) (writeOk : Bool) :
    CreateOut × Option (SerPool × Int) × Option CachedIdPool :=
  match getAndCacheIdPool store cache with
  | (.notFound, c1, _) => (.poolNotFound, store, c1)
  | (.ok e, c1, connGen) =>
    match mlookup e.Pool.Members key with
    | some _ => (.alreadyReserved, store, c1)
    | none =>
      match e.Pool.AllocateID key with
      | none => (.noId, store, some ⟨e.Pool, e.Generation⟩)
      | some (i, p2) =>
        if writeOk then
          (.created i, some (serializePool p2, connGen + 1), some ⟨p2, connGen + 1⟩)
        else
          (.writeFailed, store, some ⟨p2, e.Generation⟩)

/-- id_request Update, the owner-key rename
(src/internal/provider/resource_id_request.go lines 204-210): look the old
key up; when absent the operation errors (none); otherwise set
Members[newKey] to the old value and delete the old key.  The free set is
not touched. -/
def idRequestRename (p : IDPool) (oldKey newKey : String) : Option IDPool :=
  match mlookup p.Members oldKey with
  | none => none
  | some v => some { p with Members := mdelete (msetKey p.Members newKey v) oldKey }

/-- The member check of id_pool Update
(src/internal/provider/resource_id_pool.go lines 238-244): the first member
whose value falls outside the new range, if any. -/
def findUnfit (ms : List (String × Int)) (newS newE : Int) : Option (String × Int) :=
  ms.find? (fun kv => decide (kv.2 < newS) || decide (kv.2 > newE))

/-- Ascending list of integers in [lo, hi). -/
def intRange (lo hi : Int) : List Int :=
  (List.range (hi - lo).toNat).map (fun i => lo + (i : Int))

/-- Outcome of the id_pool Update range-change branch. -/
inductive PoolUpdateOut
| rangeTooSmall (key : String) (value : Int)
| written (p : IDPool)
deriving DecidableEq

/-- id_pool Update, range-change branch
(src/internal/provider/resource_id_pool.go lines 235-296): reject the update
with the offending member's key and value when a member no longer fits the
new range, before any mutation; otherwise set the new bounds and adjust the
free set by inserting ids that enter the range and removing ids that leave
it (the Go loop over the shrinking top end runs downward, mirrored by the
reversed list), then write the pool object.  oldS/oldE are the bounds held
in Terraform state, pool the cached pool, file the pool object content.
Returns (outcome, in-memory pool after, pool object after). -/
def idPoolUpdateRange (oldS oldE newS newE : Int) (pool : IDPool)
    (file : Option SerPool) : PoolUpdateOut × IDPool × Option SerPool :=
  match findUnfit pool.Members newS newE with
  | some (k, v) => (.rangeTooSmall k v, pool, file)
  | none =>
    let p1 := { pool with StartFrom := newS, EndTo := newE }
    let p2 :=
      if newS < oldS then (intRange newS oldS).foldl (fun q i => q.Insert i) p1
      else (intRange oldS newS).foldl (fun q i => q.Remove i) p1
    let p3 :=
      if newE > oldE then (intRange (oldE + 1) (newE + 1)).foldl (fun q i => q.Insert i) p2
      else ((intRange (newE + 1) (oldE + 1)).reverse).foldl (fun q i => q.Remove i) p2
    (.written p3, p3, some (serializePool p3))

/-! ### The CIDR allocator

The calculator lives in the external library cidrCalculator; firsthand source
is not in this repository, so GetNextNetmask is modelled from the spec
(section 4.5). -/

/-- A subnet: integer network address plus mask length (IPv4 width 32). -/
structure Cidr where
  addr : Nat
  plen : Nat
deriving DecidableEq

/-- Number of addresses covered by a mask length. -/
def blockSize (p : Nat) : Nat := 2 ^ (32 - p)

/-- Two subnets overlap when their address intervals intersect (bitwise
containment in either direction amounts to interval intersection for
power-of-two aligned blocks). -/
def cidrOverlap (c d : Cidr) : Bool :=
  decide (c.addr < d.addr + blockSize d.plen) && decide (d.addr < c.addr + blockSize c.plen)

/-- The candidate subnets of mask length p inside a base CIDR, in ascending
network-address order. -/
def cidrCandidates (base : Cidr) (p : Nat) : List Cidr :=
  (List.range (2 ^ (p - base.plen))).map (fun i => ⟨base.addr + i * blockSize p, p⟩)

/-- Modelled from the spec: cidrCalculator GetNextNetmask (section 4.5): fail
when the requested length is not strictly below the base length or exceeds
the address width; otherwise the first candidate, lowest address first, that
overlaps no reserved subnet; none when the base is full (NoSpace). -/
def getNextNetmask (subnets : List (String × Cidr)) (p : Nat) (base : Cidr) :
    Option Cidr :=
  if p ≤ base.plen ∨ 32 < p then none
  else (cidrCandidates base p).find? (fun c => subnets.all (fun kv => !(cidrOverlap c kv.2)))

/-! ### The locking protocol as a transition system

Any number of processes run the mutating-operation protocol of section 4.6
against one shared object: acquire the lock by a does-not-exist conditional
create (the body identifying the acquirer), read the object and remember its
generation, mutate in memory, write back conditional on the remembered
generation, release.  Store steps are atomic; the store content type and the
in-memory mutation are parameters so the pool and the subnet instances share
the machinery. -/

/-- Local state of one process running one mutating operation. -/
inductive PState (σ : Type)
| idle
| locked
| haveRead (snap : σ) (sgen : Nat)
| finished
| released

/-- Global state: the lock object (body = acquirer), the data object with its
generation, and every process's local state. -/
structure GState (σ : Type) (n : Nat) where
  lock : Option (Fin n)
  store : σ
  gen : Nat
  procs : Fin n → PState σ

/-- Pointwise update of the process map. -/
def updProc {σ : Type} {n : Nat} (procs : Fin n → PState σ) (p : Fin n)
    (st : PState σ) : Fin n → PState σ :=
  fun q => if q = p then st else procs q

/-- One atomic step of the system.  Mut is the in-memory mutation a writer
performs between its read and its conditional write. -/
inductive LockStep {σ : Type} {n : Nat} (Mut : σ → σ → Prop) :
    GState σ n → GState σ n → Prop
| acquire (s : GState σ n) (p : Fin n) :
    s.procs p = .idle → s.lock = none →
    LockStep Mut s ⟨some p, s.store, s.gen, updProc s.procs p .locked⟩
| readSnap (s : GState σ n) (p : Fin n) :
    s.procs p = .locked →
    LockStep Mut s ⟨s.lock, s.store, s.gen, updProc s.procs p (.haveRead s.store s.gen)⟩
| writeOk (s : GState σ n) (p : Fin n) (snap t : σ) :
    s.procs p = .haveRead snap s.gen → Mut snap t →
    LockStep Mut s ⟨s.lock, t, s.gen + 1, updProc s.procs p .finished⟩
| writeConflict (s : GState σ n) (p : Fin n) (snap : σ) (g : Nat) :
    s.procs p = .haveRead snap g → g ≠ s.gen →
    LockStep Mut s ⟨s.lock, s.store, s.gen, updProc s.procs p .finished⟩
| abort (s : GState σ n) (p : Fin n) (snap : σ) (g : Nat) :
    s.procs p = .haveRead snap g →
    LockStep Mut s ⟨s.lock, s.store, s.gen, updProc s.procs p .finished⟩
| release (s : GState σ n) (p : Fin n) :
    s.procs p = .finished → s.lock = some p →
    LockStep Mut s ⟨none, s.store, s.gen, updProc s.procs p .released⟩
| releaseStale (s : GState σ n) (p : Fin n) :
    s.procs p = .finished → s.lock ≠ some p →
    LockStep Mut s ⟨s.lock, s.store, s.gen, updProc s.procs p .released⟩

/-- The initial state: no lock object, the data object at generation 0, all
processes idle. -/
def initState {σ : Type} (n : Nat) (s0 : σ) : GState σ n :=
  ⟨none, s0, 0, fun _ => .idle⟩

/-- A process holds the lock from a successful acquire until its release. -/
def Holding {σ : Type} : PState σ → Prop
  | .locked => True
  | .haveRead _ _ => True
  | .finished => True
  | _ => False

/-- At most one process holds the lock. -/
def AtMostOneHolder {σ : Type} {n : Nat} (s : GState σ n) : Prop :=
  ∀ p q : Fin n, Holding (s.procs p) → Holding (s.procs q) → p = q

/-- Lock ownership invariant: every holding process is the one named by the
lock object. -/
def LockInv {σ : Type} {n : Nat} (s : GState σ n) : Prop :=
  ∀ p : Fin n, Holding (s.procs p) → s.lock = some p

/-- Snapshot invariant: every remembered generation is at most the store's,
matching it exactly when the snapshot is current, and every snapshot
satisfies the store invariant. -/
def SnapInv {σ : Type} {n : Nat} (Inv : σ → Prop) (s : GState σ n) : Prop :=
  ∀ (p : Fin n) (snap : σ) (g : Nat), s.procs p = .haveRead snap g →
    g ≤ s.gen ∧ (g = s.gen → snap = s.store) ∧ Inv snap

/-- The full inductive invariant of the system. -/
def SysInv {σ : Type} {n : Nat} (Inv : σ → Prop) (s : GState σ n) : Prop :=
  Inv s.store ∧ LockInv s ∧ SnapInv Inv s

/-- No value is owned by two distinct owner keys. -/
def NoDoubleOwn {α : Type} (ms : List (String × α)) : Prop :=
  ∀ (k1 k2 : String) (v : α), mlookup ms k1 = some v → mlookup ms k2 = some v → k1 = k2

/-- The allocator invariant the protocol maintains: distinct member values
and a free set disjoint from the allocated values. -/
def PoolInv (p : IDPool) : Prop :=
  NoDoubleOwn p.Members ∧ ∀ i ∈ p.Free, i ∉ mvalues p.Members

/-- The in-memory mutation of a successful id_request Create: some key got a
fresh id through AllocateID. -/
def poolAllocMut (a b : IDPool) : Prop :=
  ∃ key i, a.AllocateID key = some (i, b)

/-- The in-memory mutation of a successful network_request Create: an absent
key got the netmask chosen by GetNextNetmask. -/
def netAllocMut (pl : Nat) (base : Cidr) (a b : List (String × Cidr)) : Prop :=
  ∃ key nm, mlookup a key = none ∧ getNextNetmask a pl base = some nm ∧ b = msetKey a key nm

theorem allocateID_some {p : IDPool} {k : String} {i : Int} {q : IDPool}
    (h : p.AllocateID k = some (i, q)) :
    mlookup p.Members k = none ∧ i ∈ p.Free ∧
      q.Members = msetKey p.Members k i ∧ q.Free = p.Free.erase i := by
  unfold IDPool.AllocateID at h
  cases hm : mlookup p.Members k with
  | some w => rw [hm] at h; simp at h
  | none =>
    rw [hm] at h
    by_cases hne : p.Free.Nonempty
    · rw [dif_pos hne] at h
      simp only [Option.some.injEq, Prod.mk.injEq] at h
      obtain ⟨hij, hq⟩ := h
      subst hij
      subst hq
      exact ⟨rfl, Finset.min'_mem p.Free hne, rfl, rfl⟩
    · rw [dif_neg hne] at h
      simp at h

theorem noDoubleOwn_extend {α : Type} {ms : List (String × α)} {k : String} {v : α}
    (hnd : NoDoubleOwn ms) (_hk : mlookup ms k = none) (hv : v ∉ mvalues ms) :
    NoDoubleOwn (msetKey ms k v) := by
  intro k1 k2 w h1 h2
  by_cases e1 : k1 = k <;> by_cases e2 : k2 = k
  · rw [e1, e2]
  · rw [e1, mlookup_msetKey_self] at h1
    rw [mlookup_msetKey_other ms k k2 v e2] at h2
    have hw : w = v := (Option.some.inj h1).symm
    rw [hw] at h2
    exact absurd (mem_mvalues_of_mlookup ms k2 v h2) hv
  · rw [e2, mlookup_msetKey_self] at h2
    rw [mlookup_msetKey_other ms k k1 v e1] at h1
    have hw : w = v := (Option.some.inj h2).symm
    rw [hw] at h1
    exact absurd (mem_mvalues_of_mlookup ms k1 v h1) hv
  · rw [mlookup_msetKey_other ms k k1 v e1] at h1
    rw [mlookup_msetKey_other ms k k2 v e2] at h2
    exact hnd k1 k2 w h1 h2

theorem poolInv_allocMut {a b : IDPool} (hinv : PoolInv a) (hmut : poolAllocMut a b) :
    PoolInv b := by
  obtain ⟨key, i, halloc⟩ := hmut
  obtain ⟨hnone, hmem, hM, hF⟩ := allocateID_some halloc
  obtain ⟨hnd, hdisj⟩ := hinv
  constructor
  · rw [hM]
    exact noDoubleOwn_extend hnd hnone (hdisj i hmem)
  · intro j hj
    rw [hF] at hj
    have hji : j ≠ i := Finset.ne_of_mem_erase hj
    have hjF : j ∈ a.Free := Finset.mem_of_mem_erase hj
    rw [hM, msetKey_absent a.Members key i hnone]
    intro hmem2
    simp only [mvalues, List.map_append, List.map, List.mem_append,
      List.mem_singleton] at hmem2
    rcases hmem2 with h2 | h2
    · exact hdisj j hjF h2
    · exact hji h2

theorem cidrOverlap_self (c : Cidr) : cidrOverlap c c = true := by
  have hpos : 0 < blockSize c.plen := Nat.pos_pow_of_pos _ (by decide)
  simp only [cidrOverlap, Bool.and_eq_true, decide_eq_true_eq]
  omega

theorem getNextNetmask_fresh {subnets : List (String × Cidr)} {pl : Nat} {base : Cidr}
    {nm : Cidr} (h : getNextNetmask subnets pl base = some nm) : nm ∉ mvalues subnets := by
  unfold getNextNetmask at h
  split at h
  · simp at h
  · have hpred := List.find?_some h
    intro hmem
    obtain ⟨⟨k, d⟩, hkd, hd⟩ := List.mem_map.mp hmem
    have hall := (List.all_eq_true.mp hpred) ⟨k, d⟩ hkd
    simp only [Bool.not_eq_true'] at hall
    rw [show d = nm from hd, cidrOverlap_self nm] at hall
    exact Bool.noConfusion hall

theorem netOwn_allocMut {pl : Nat} {base : Cidr} {a b : List (String × Cidr)}
    (hinv : NoDoubleOwn a) (hmut : netAllocMut pl base a b) : NoDoubleOwn b := by
  obtain ⟨key, nm, hnone, hnext, hb⟩ := hmut
  rw [hb]
  exact noDoubleOwn_extend hinv hnone (getNextNetmask_fresh hnext)

theorem sysInv_step {σ : Type} {n : Nat} {Mut : σ → σ → Prop} {Inv : σ → Prop}
    (pres : ∀ a b, Inv a → Mut a b → Inv b)
    {s t : GState σ n} (hinv : SysInv Inv s) (hstep : LockStep Mut s t) :
    SysInv Inv t := by
  obtain ⟨hstore, hlock, hsnap⟩ := hinv
  cases hstep with
  | acquire p hp hl =>
    refine ⟨hstore, ?_, ?_⟩
    · intro q hq
      by_cases hqp : q = p
      · simp [hqp]
      · have hq2 : Holding (s.procs q) := by simpa [updProc, hqp] using hq
        have := hlock q hq2
        rw [hl] at this
        exact Option.noConfusion this
    · intro q snap g hq
      by_cases hqp : q = p
      · rw [hqp] at hq
        simp [updProc] at hq
      · have hq2 : s.procs q = .haveRead snap g := by simpa [updProc, hqp] using hq
        exact hsnap q snap g hq2
  | readSnap p hp =>
    refine ⟨hstore, ?_, ?_⟩
    · intro q hq
      by_cases hqp : q = p
      · rw [hqp]
        exact hlock p (by rw [hp]; trivial)
      · have hq2 : Holding (s.procs q) := by simpa [updProc, hqp] using hq
        exact hlock q hq2
    · intro q snap g hq
      by_cases hqp : q = p
      · rw [hqp] at hq
        have hq3 : PState.haveRead s.store s.gen = PState.haveRead snap g := by
          simpa [updProc] using hq
        injection hq3 with h1 h2
        exact ⟨le_of_eq h2.symm, fun _ => h1.symm, h1 ▸ hstore⟩
      · have hq2 : s.procs q = .haveRead snap g := by simpa [updProc, hqp] using hq
        exact hsnap q snap g hq2
  | writeOk p snap t2 hp hmut =>
    obtain ⟨hle, hcur, hsinv⟩ := hsnap p snap s.gen hp
    refine ⟨pres snap t2 hsinv hmut, ?_, ?_⟩
    · intro q hq
      by_cases hqp : q = p
      · rw [hqp]
        exact hlock p (by rw [hp]; trivial)
      · have hq2 : Holding (s.procs q) := by simpa [updProc, hqp] using hq
        exact hlock q hq2
    · intro q snap2 g hq
      by_cases hqp : q = p
      · rw [hqp] at hq
        simp [updProc] at hq
      · have hq2 : s.procs q = .haveRead snap2 g := by simpa [updProc, hqp] using hq
        obtain ⟨hle2, _, hsinv2⟩ := hsnap q snap2 g hq2
        refine ⟨Nat.le_succ_of_le hle2, ?_, hsinv2⟩
        intro he
        exfalso
        have he2 : g = s.gen + 1 := he
        omega
  | writeConflict p snap g hp hne =>
    refine ⟨hstore, ?_, ?_⟩
    · intro q hq
      by_cases hqp : q = p
      · rw [hqp]
        exact hlock p (by rw [hp]; trivial)
      · have hq2 : Holding (s.procs q) := by simpa [updProc, hqp] using hq
        exact hlock q hq2
    · intro q snap2 g2 hq
      by_cases hqp : q = p
      · rw [hqp] at hq
        simp [updProc] at hq
      · have hq2 : s.procs q = .haveRead snap2 g2 := by simpa [updProc, hqp] using hq
        exact hsnap q snap2 g2 hq2
  | abort p snap g hp =>
    refine ⟨hstore, ?_, ?_⟩
    · intro q hq
      by_cases hqp : q = p
      · rw [hqp]
        exact hlock p (by rw [hp]; trivial)
      · have hq2 : Holding (s.procs q) := by simpa [updProc, hqp] using hq
        exact hlock q hq2
    · intro q snap2 g2 hq
      by_cases hqp : q = p
      · rw [hqp] at hq
        simp [updProc] at hq
      · have hq2 : s.procs q = .haveRead snap2 g2 := by simpa [updProc, hqp] using hq
        exact hsnap q snap2 g2 hq2
  | release p hp hl =>
    refine ⟨hstore, ?_, ?_⟩
    · intro q hq
      by_cases hqp : q = p
      · rw [hqp] at hq
        simp [updProc, Holding] at hq
      · have hq2 : Holding (s.procs q) := by simpa [updProc, hqp] using hq
        have := hlock q hq2
        rw [hl] at this
        exact absurd (Option.some.inj this).symm hqp
    · intro q snap2 g2 hq
      by_cases hqp : q = p
      · rw [hqp] at hq
        simp [updProc] at hq
      · have hq2 : s.procs q = .haveRead snap2 g2 := by simpa [updProc, hqp] using hq
        exact hsnap q snap2 g2 hq2
  | releaseStale p hp hl =>
    refine ⟨hstore, ?_, ?_⟩
    · intro q hq
      by_cases hqp : q = p
      · rw [hqp] at hq
        simp [updProc, Holding] at hq
      · have hq2 : Holding (s.procs q) := by simpa [updProc, hqp] using hq
        exact hlock q hq2
    · intro q snap2 g2 hq
      by_cases hqp : q = p
      · rw [hqp] at hq
        simp [updProc] at hq
      · have hq2 : s.procs q = .haveRead snap2 g2 := by simpa [updProc, hqp] using hq
        exact hsnap q snap2 g2 hq2

theorem sysInv_reach {σ : Type} {n : Nat} {Mut : σ → σ → Prop} {Inv : σ → Prop}
    (pres : ∀ a b, Inv a → Mut a b → Inv b) {s0 s : GState σ n}
    (h0 : SysInv Inv s0) (h : Relation.ReflTransGen (LockStep Mut) s0 s) :
    SysInv Inv s := by
  induction h with
  | refl => exact h0
  | tail h1 h2 ih => exact sysInv_step pres ih h2

theorem atMostOneHolder_of_lockInv {σ : Type} {n : Nat} {s : GState σ n}
    (h : LockInv s) : AtMostOneHolder s := by
  intro p q hp hq
  have h1 := h p hp
  have h2 := h q hq
  rw [h1] at h2
  exact (Option.some.inj h2)

theorem sysInv_init {σ : Type} {n : Nat} {Inv : σ → Prop} {s0 : σ} (h : Inv s0) :
    SysInv Inv (initState n s0) := by
  refine ⟨h, ?_, ?_⟩
  · intro p hp
    simp [initState, Holding] at hp
  · intro p snap g hp
    simp [initState] at hp

/-! ### Claim theorems -/

/-- C2: connector.Write performs the write under the does-not-exist
precondition exactly when the handle's remembered generation is -1 and under
the generation-matches precondition equal to the handle's generation
otherwise; the write behaves as that precondition dictates (success exactly
when it holds of the stored object), and on every successful write the
handle's generation becomes the generation the store assigned. -/
theorem write_precondition_and_generation {α : Type} (handleGen : Int) (v : α)
    (obj : Option (α × Int)) (newGen : Int) :
    (handleGen = -1 → writeCondition handleGen = .doesNotExist) ∧
    (handleGen ≠ -1 → writeCondition handleGen = .genMatch handleGen) ∧
    (connectorWrite handleGen v obj newGen =
      if condHolds (writeCondition handleGen) obj then some (newGen, some (v, newGen))
      else none) := by
  refine ⟨fun h => by simp [writeCondition, h], fun h => by simp [writeCondition, h], ?_⟩
  by_cases h : handleGen = -1
  · cases obj with
    | none => simp [connectorWrite, writeCondition, condHolds, h]
    | some pr => simp [connectorWrite, writeCondition, condHolds, h]
  · cases obj with
    | none => simp [connectorWrite, writeCondition, condHolds, h]
    | some pr =>
      obtain ⟨w, g2⟩ := pr
      by_cases hg : g2 = handleGen
      · simp [connectorWrite, writeCondition, condHolds, h, hg]
      · simp [connectorWrite, writeCondition, condHolds, h, hg]

/-- Witness for C2: the branches evaluated at concrete handles; a handle at
generation 5 writing over an object at generation 5 succeeds and remembers
the stored generation 6. -/
theorem write_precondition_and_generation_witness :
    writeCondition (-1) = .doesNotExist ∧
    writeCondition 5 = .genMatch 5 ∧
    connectorWrite (5 : Int) (42 : Int) (some (0, 5)) 6 = some (6, some (42, 6)) := by
  refine ⟨(write_precondition_and_generation (-1) (0 : Int) none 0).1 rfl,
          (write_precondition_and_generation (5 : Int) (0 : Int) none 0).2.1 (by decide), ?_⟩
  have h := (write_precondition_and_generation (5 : Int) (42 : Int) (some (0, 5)) 6).2.2
  rw [h]
  decide

/-- C3: connector.Unlock deletes the lock object exactly when the object's
body equals the canonical string of the caller's lock id; whenever the body
differs it deletes nothing and returns an error, so Unlock never deletes a
lock whose body differs from the holder's UUID. -/
theorem unlock_never_deletes_foreign_lock (lockObj : Option String) (lockId : String) :
    ((connectorUnlock lockObj lockId).2 = .deleted ↔ lockObj = some lockId) ∧
    (∀ body, lockObj = some body → body ≠ lockId →
      connectorUnlock lockObj lockId = (lockObj, .staleLock)) ∧
    ((connectorUnlock lockObj lockId).2 ≠ .deleted →
      (connectorUnlock lockObj lockId).1 = lockObj) := by
  cases lockObj with
  | none => simp [connectorUnlock]
  | some body =>
    by_cases h : body = lockId
    · subst h
      simp [connectorUnlock]
    · simp [connectorUnlock, h]

/-- Witness for C3: a holder of lock id u2 finding body u1 deletes nothing
and gets the stale-lock error. -/
theorem unlock_never_deletes_foreign_lock_witness :
    connectorUnlock (some "u1") "u2" = (some "u1", .staleLock) := by
  exact (unlock_never_deletes_foreign_lock (some "u1") "u2").2.1 "u1" rfl (by decide)

/-- C8 (the code at the failing input): at iteration 1 with jitter draw 0 and
exactly one second of timeout remaining, the backoff pause is taken (no
Timeout) and lasts 1.5 seconds in total, because the select waits on the
time.After timer and the case body then sleeps the same duration again.
That exceeds the remaining second, and it deviates from the base by more
than the claimed jitter bound of base/4. -/
theorem backoff_double_sleep_exceeds_remaining :
    iterationSleep 1 0 nsPerSec = some 1500000000 ∧
    (1500000000 : Int) > nsPerSec ∧
    (1500000000 : Int) - baseBackoff 1 > baseBackoff 1 / 4 := by
  refine ⟨by decide, by decide, by decide⟩

/-- C9: reading the current lock id is not total over lock-object bodies:
a body that uuid.Parse rejects makes connector.GetCurrentLockId panic
through uuid.MustParse instead of returning an error. -/
theorem getCurrentLockId_panics_on_bad_body :
    ∃ body : String, goUuidParses body = false ∧
      GetCurrentLockId (some body) = .panicked := by
  refine ⟨"not-a-uuid", by decide, by decide⟩

/-- C1: in every execution of the protocol by any number of concurrent
processes against the same store -- the lock taken by a does-not-exist
conditional create, every data write conditioned on the generation
remembered at the read -- no pool id and no base-CIDR subnet is ever owned
by two distinct owner keys in any reachable store state, and at most one
process holds the lock at any time. -/
theorem no_double_ownership_and_mutex :
    (∀ (n : Nat) (p0 : IDPool) (s : GState IDPool n),
      PoolInv p0 →
      Relation.ReflTransGen (LockStep poolAllocMut) (initState n p0) s →
      NoDoubleOwn s.store.Members ∧ AtMostOneHolder s) ∧
    (∀ (n pl : Nat) (base : Cidr) (ns0 : List (String × Cidr))
      (s : GState (List (String × Cidr)) n),
      NoDoubleOwn ns0 →
      Relation.ReflTransGen (LockStep (netAllocMut pl base)) (initState n ns0) s →
      NoDoubleOwn s.store ∧ AtMostOneHolder s) := by
  constructor
  · intro n p0 s h0 hreach
    have hinv := @sysInv_reach IDPool n poolAllocMut PoolInv
      (fun a b ha hm => poolInv_allocMut ha hm) (initState n p0) s
      (sysInv_init h0) hreach
    exact ⟨hinv.1.1, atMostOneHolder_of_lockInv hinv.2.1⟩
  · intro n pl base ns0 s h0 hreach
    have hinv := @sysInv_reach (List (String × Cidr)) n (netAllocMut pl base) NoDoubleOwn
      (fun a b ha hm => netOwn_allocMut ha hm) (initState n ns0) s
      (sysInv_init h0) hreach
    exact ⟨hinv.1, atMostOneHolder_of_lockInv hinv.2.1⟩

/-- Start of a one-process demonstration run: pool with the single id 1. -/
def demoPool0 : GState IDPool 1 := initState 1 (NewIDPool 1 1)

/-- After the acquire step. -/
def demoPool1 : GState IDPool 1 :=
  ⟨some 0, demoPool0.store, demoPool0.gen, updProc demoPool0.procs 0 .locked⟩

/-- After the read step. -/
def demoPool2 : GState IDPool 1 :=
  ⟨demoPool1.lock, demoPool1.store, demoPool1.gen,
    updProc demoPool1.procs 0 (.haveRead demoPool1.store demoPool1.gen)⟩

/-- The pool after owner key a allocates id 1. -/
def demoPoolAllocated : IDPool :=
  ⟨1, 1, [("a", 1)], (Finset.Icc (1 : Int) 1).erase 1⟩

/-- After the conditional write commits the allocation. -/
def demoPool3 : GState IDPool 1 :=
  ⟨demoPool2.lock, demoPoolAllocated, demoPool2.gen + 1, updProc demoPool2.procs 0 .finished⟩

/-- After the release step. -/
def demoPool4 : GState IDPool 1 :=
  ⟨none, demoPool3.store, demoPool3.gen, updProc demoPool3.procs 0 .released⟩

theorem demoPool_reach :
    Relation.ReflTransGen (LockStep poolAllocMut) demoPool0 demoPool4 := by
  have h1 : LockStep poolAllocMut demoPool0 demoPool1 :=
    LockStep.acquire demoPool0 0 rfl rfl
  have h2 : LockStep poolAllocMut demoPool1 demoPool2 :=
    LockStep.readSnap demoPool1 0 rfl
  have h3 : LockStep poolAllocMut demoPool2 demoPool3 :=
    LockStep.writeOk demoPool2 0 demoPool1.store demoPoolAllocated rfl
      ⟨"a", 1, by decide⟩
  have h4 : LockStep poolAllocMut demoPool3 demoPool4 :=
    LockStep.release demoPool3 0 rfl rfl
  exact ((((Relation.ReflTransGen.refl).tail h1).tail h2).tail h3).tail h4

/-- Witness for C1: the pool branch applied to a four-step run (acquire,
read, allocate-and-write, release) ending with members [(a, 1)], and the
subnet branch applied to the initial state of two processes over base
10.0.0.0/16 requesting /24 subnets. -/
theorem no_double_ownership_and_mutex_witness :
    (NoDoubleOwn demoPool4.store.Members ∧ AtMostOneHolder demoPool4) ∧
    (NoDoubleOwn (initState 2 ([] : List (String × Cidr))).store ∧
      AtMostOneHolder (initState 2 ([] : List (String × Cidr)))) := by
  constructor
  · refine no_double_ownership_and_mutex.1 1 (NewIDPool 1 1) demoPool4 ?_ demoPool_reach
    constructor
    · intro k1 k2 v h1 h2
      simp [NewIDPool, mlookup] at h1
    · intro i hi
      simp [NewIDPool, mvalues]
  · refine no_double_ownership_and_mutex.2 2 24 ⟨167772160, 16⟩ [] _ ?_
      Relation.ReflTransGen.refl
    intro k1 k2 v h1 h2
    simp [mlookup] at h1

/-- C4: the pool-cache get always leaves the connector generation at the
observed remote generation (-1 when the object is absent); it returns the
cached entry, cache untouched, exactly when one exists whose stored
generation equals the remote generation; when the remote object is absent it
evicts any stale entry and reports not-found; otherwise it reads the pool,
reconciles it, stores it with the post-read generation and returns it. -/
theorem getAndCache_generation_hit_miss (store : Option (SerPool × Int))
    (cache : Option CachedIdPool) :
    (getAndCacheIdPool store cache).2.2 = remoteGeneration store ∧
    (∀ e, cache = some e → e.Generation = remoteGeneration store →
      getAndCacheIdPool store cache = (.ok e, some e, remoteGeneration store)) ∧
    ((∀ e, cache = some e → e.Generation ≠ remoteGeneration store) → store = none →
      getAndCacheIdPool store cache = (.notFound, none, remoteGeneration store)) ∧
    (∀ sp g, (∀ e, cache = some e → e.Generation ≠ remoteGeneration store) →
      store = some (sp, g) →
      getAndCacheIdPool store cache =
        (.ok ⟨reconcilePool sp, g⟩, some ⟨reconcilePool sp, g⟩, g)) := by
  refine ⟨?_, ?_, ?_, ?_⟩
  · cases cache with
    | none =>
      cases store with
      | none => rfl
      | some pr => obtain ⟨sp, g⟩ := pr; rfl
    | some e =>
      by_cases h : e.Generation = remoteGeneration store
      · simp [getAndCacheIdPool, h]
      · cases store with
        | none => simp [getAndCacheIdPool, h]
        | some pr =>
          obtain ⟨sp, g⟩ := pr
          simp only [remoteGeneration] at h
          simp [getAndCacheIdPool, remoteGeneration, h]
  · intro e he hgen
    subst he
    simp [getAndCacheIdPool, hgen]
  · intro hmiss hnone
    subst hnone
    cases cache with
    | none => rfl
    | some e => simp [getAndCacheIdPool, hmiss e rfl]
  · intro sp g hmiss hsome
    subst hsome
    cases cache with
    | none => simp [getAndCacheIdPool, remoteGeneration]
    | some e =>
      have hne := hmiss e rfl
      simp only [remoteGeneration] at hne
      simp [getAndCacheIdPool, remoteGeneration, hne]

/-- Witness for C4: a hit on an entry cached at generation 7, and a cold-cache
read of the same object producing the reconciled entry. -/
theorem getAndCache_generation_hit_miss_witness :
    getAndCacheIdPool (some (⟨1, 2, [("a", 1)]⟩, 7))
        (some ⟨reconcilePool ⟨1, 2, [("a", 1)]⟩, 7⟩) =
      (.ok ⟨reconcilePool ⟨1, 2, [("a", 1)]⟩, 7⟩,
        some ⟨reconcilePool ⟨1, 2, [("a", 1)]⟩, 7⟩, 7) ∧
    getAndCacheIdPool (some (⟨1, 2, [("a", 1)]⟩, 7)) none =
      (.ok ⟨reconcilePool ⟨1, 2, [("a", 1)]⟩, 7⟩,
        some ⟨reconcilePool ⟨1, 2, [("a", 1)]⟩, 7⟩, 7) := by
  constructor
  · exact (getAndCache_generation_hit_miss (some (⟨1, 2, [("a", 1)]⟩, 7))
      (some ⟨reconcilePool ⟨1, 2, [("a", 1)]⟩, 7⟩)).2.1
      ⟨reconcilePool ⟨1, 2, [("a", 1)]⟩, 7⟩ rfl rfl
  · exact (getAndCache_generation_hit_miss (some (⟨1, 2, [("a", 1)]⟩, 7)) none).2.2.2
      ⟨1, 2, [("a", 1)]⟩ 7 (fun e he => Option.noConfusion he) rfl

theorem foldl_remove_spec (l : List (String × Int)) (p : IDPool) :
    (l.foldl (fun q kv => q.Remove kv.2) p).StartFrom = p.StartFrom ∧
    (l.foldl (fun q kv => q.Remove kv.2) p).EndTo = p.EndTo ∧
    (l.foldl (fun q kv => q.Remove kv.2) p).Members = p.Members ∧
    (l.foldl (fun q kv => q.Remove kv.2) p).Free = p.Free \ (mvalues l).toFinset := by
  induction l generalizing p with
  | nil => simp [mvalues]
  | cons hd tl ih =>
    obtain ⟨k, v⟩ := hd
    obtain ⟨h1, h2, h3, h4⟩ := ih (p.Remove v)
    refine ⟨h1, h2, h3, ?_⟩
    rw [List.foldl_cons, h4]
    show (p.Remove v).Free \ (mvalues tl).toFinset = p.Free \ (mvalues ((k, v) :: tl)).toFinset
    ext j
    simp only [IDPool.Remove, Finset.mem_sdiff, Finset.mem_erase, List.mem_toFinset,
      mvalues, List.map_cons, List.mem_cons]
    constructor
    · rintro ⟨⟨hjv, hjF⟩, hjt⟩
      exact ⟨hjF, by rintro (h | h) <;> [exact hjv h; exact hjt h]⟩
    · rintro ⟨hjF, hno⟩
      exact ⟨⟨fun h => hno (Or.inl h), hjF⟩, fun h => hno (Or.inr h)⟩

/-- C5: serializing a valid pool record, deserializing it and reconciling
preserves members and the range exactly, and rebuilds a free set that is the
exact complement of the member values within the range. -/
theorem serialize_reconcile_roundtrip (p : IDPool)
    (_hrange : p.StartFrom ≤ p.EndTo)
    (_hdist : (mvalues p.Members).Nodup)
    (_hin : ∀ v ∈ mvalues p.Members, p.StartFrom ≤ v ∧ v ≤ p.EndTo) :
    (reconcilePool (serializePool p)).Members = p.Members ∧
    (reconcilePool (serializePool p)).StartFrom = p.StartFrom ∧
    (reconcilePool (serializePool p)).EndTo = p.EndTo ∧
    (reconcilePool (serializePool p)).Free =
      Finset.Icc p.StartFrom p.EndTo \ (mvalues p.Members).toFinset := by
  obtain ⟨h1, h2, h3, h4⟩ := foldl_remove_spec p.Members (NewIDPool p.StartFrom p.EndTo)
  exact ⟨rfl, h1, h2, h4⟩

/-- Witness for C5: the pool over [1, 3] with member (a, 2) round-trips to
members [(a, 2)], range [1, 3], and free set the two remaining ids 1 and 3. -/
theorem serialize_reconcile_roundtrip_witness :
    (reconcilePool (serializePool ⟨1, 3, [("a", 2)], {1, 3}⟩)).Members = [("a", 2)] ∧
    (reconcilePool (serializePool ⟨1, 3, [("a", 2)], {1, 3}⟩)).Free =
      Finset.Icc (1 : Int) 3 \ (mvalues [("a", (2 : Int))]).toFinset := by
  have h := serialize_reconcile_roundtrip ⟨1, 3, [("a", 2)], {1, 3}⟩
    (by decide) (by decide) (by decide)
  exact ⟨h.1, h.2.2.2⟩

/-- C6 (the code at a failing input): an id_request Create for owner key a on
the pool object with range 1-2, no members, generation 5, begun with a cold
cache, whose conditional write fails, reports the failure and leaves the
object untouched -- but the in-memory changes are not discarded: the cache
keeps the allocator mutated by AllocateID under the old generation 5, so the
next pool-cache get is a cache hit returning members [(a, 1)], not the
pre-operation state, whose reconciled members are empty. -/
theorem create_failed_write_keeps_mutated_cache :
    idRequestCreate "a" (some (⟨1, 2, []⟩, 5)) none false =
      (.writeFailed, some (⟨1, 2, []⟩, 5),
        some ⟨⟨1, 2, [("a", 1)], (Finset.Icc (1 : Int) 2).erase 1⟩, 5⟩) ∧
    (getAndCacheIdPool (some (⟨1, 2, []⟩, 5))
        (some ⟨⟨1, 2, [("a", 1)], (Finset.Icc (1 : Int) 2).erase 1⟩, 5⟩)).1 =
      .ok ⟨⟨1, 2, [("a", 1)], (Finset.Icc (1 : Int) 2).erase 1⟩, 5⟩ ∧
    (reconcilePool ⟨1, 2, []⟩).Members = [] := by
  refine ⟨by decide, by decide, by decide⟩

/-- C7: a pool Update that changes the range fails, whenever some current
member's value lies outside the new range, with the range-too-small error
carrying an offending member's key and value, and it mutates neither the
in-memory pool nor the pool file. -/
theorem update_range_too_small (oldS oldE newS newE : Int) (pool : IDPool)
    (file : Option SerPool) (k0 : String) (v0 : Int)
    (hmem : (k0, v0) ∈ pool.Members) (hout : v0 < newS ∨ v0 > newE) :
    ∃ k v, (k, v) ∈ pool.Members ∧ (v < newS ∨ v > newE) ∧
      idPoolUpdateRange oldS oldE newS newE pool file =
        (.rangeTooSmall k v, pool, file) := by
  have hex : ∃ x ∈ pool.Members, (decide (x.2 < newS) || decide (x.2 > newE)) = true :=
    ⟨(k0, v0), hmem, by rcases hout with h | h <;> simp [h]⟩
  have hsome : (pool.Members.find?
      (fun kv => decide (kv.2 < newS) || decide (kv.2 > newE))).isSome :=
    List.find?_isSome.mpr hex
  obtain ⟨⟨k, v⟩, hfind⟩ := Option.isSome_iff_exists.mp hsome
  have hmem2 := List.mem_of_find?_eq_some hfind
  have hpred := List.find?_some hfind
  refine ⟨k, v, hmem2, by simpa using hpred, ?_⟩
  have hfu : findUnfit pool.Members newS newE = some (k, v) := hfind
  unfold idPoolUpdateRange
  rw [hfu]

/-- Witness for C7: the scenario of the claim -- pool over [1, 20] with
member (a, 17), shrunk to [1, 10] -- fails naming key a and value 17 and
leaves pool and file untouched. -/
theorem update_range_too_small_witness :
    ∃ k v, (k, v) ∈ ([("a", 17)] : List (String × Int)) ∧ (v < 1 ∨ v > 10) ∧
      idPoolUpdateRange 1 20 1 10 ⟨1, 20, [("a", 17)], (Finset.Icc (1 : Int) 20).erase 17⟩
          (some ⟨1, 20, [("a", 17)]⟩) =
        (.rangeTooSmall k v, ⟨1, 20, [("a", 17)], (Finset.Icc (1 : Int) 20).erase 17⟩,
          some ⟨1, 20, [("a", 17)]⟩) := by
  exact update_range_too_small 1 20 1 10
    ⟨1, 20, [("a", 17)], (Finset.Icc (1 : Int) 20).erase 17⟩
    (some ⟨1, 20, [("a", 17)]⟩) "a" 17 (by simp) (by decide)

/-- C10: an id_request Update renaming an owner key whose old key is a member
hands the new key exactly the id of the old key, touches the free set not at
all, and silently overwrites any existing reservation of the new key: the id
the new key previously held is afterwards owned by no key and is not free
either. -/
theorem rename_keeps_id_and_drops_overwritten (p : IDPool) (oldKey newKey : String)
    (v : Int) (hne : oldKey ≠ newKey)
    (hold : mlookup p.Members oldKey = some v)
    (hinv : PoolInv p) :
    ∃ q, idRequestRename p oldKey newKey = some q ∧
      mlookup q.Members newKey = some v ∧
      mlookup q.Members oldKey = none ∧
      q.Free = p.Free ∧
      (∀ k2, k2 ≠ oldKey → k2 ≠ newKey → mlookup q.Members k2 = mlookup p.Members k2) ∧
      (∀ x, mlookup p.Members newKey = some x →
        (∀ k, mlookup q.Members k ≠ some x) ∧ x ∉ q.Free) := by
  refine ⟨{ p with Members := mdelete (msetKey p.Members newKey v) oldKey }, ?_, ?_, ?_, rfl, ?_, ?_⟩
  · unfold idRequestRename
    rw [hold]
  · rw [mlookup_mdelete_other _ oldKey newKey (fun h => hne h.symm),
      mlookup_msetKey_self]
  · exact mlookup_mdelete_self _ oldKey
  · intro k2 hko hkn
    show mlookup (mdelete (msetKey p.Members newKey v) oldKey) k2 = mlookup p.Members k2
    rw [mlookup_mdelete_other _ oldKey k2 hko, mlookup_msetKey_other _ newKey k2 v hkn]
  · intro x hx
    have hvx : v ≠ x := by
      intro hvx
      rw [hvx] at hold
      exact hne (hinv.1 oldKey newKey x hold hx)
    constructor
    · intro k
      by_cases hko : k = oldKey
      · rw [hko]
        show mlookup (mdelete (msetKey p.Members newKey v) oldKey) oldKey ≠ some x
        rw [mlookup_mdelete_self]
        exact fun h => Option.noConfusion h
      · by_cases hkn : k = newKey
        · rw [hkn]
          show mlookup (mdelete (msetKey p.Members newKey v) oldKey) newKey ≠ some x
          rw [mlookup_mdelete_other _ oldKey newKey (fun h => hne h.symm),
            mlookup_msetKey_self]
          intro h
          exact hvx (Option.some.inj h)
        · show mlookup (mdelete (msetKey p.Members newKey v) oldKey) k ≠ some x
          rw [mlookup_mdelete_other _ oldKey k hko, mlookup_msetKey_other _ newKey k v hkn]
          intro h
          exact hkn (hinv.1 k newKey x h hx)
    · show x ∉ p.Free
      intro hxF
      exact hinv.2 x hxF (mem_mvalues_of_mlookup p.Members newKey x hx)

/-- Witness for C10: renaming old to new in the pool over [1, 5] with members
old 2 and new 3: the rename succeeds, new ends owning 2, the free set
1, 4, 5 is untouched, and the overwritten id 3 is afterwards neither owned
nor free. -/
theorem rename_keeps_id_and_drops_overwritten_witness :
    ∃ q, idRequestRename ⟨1, 5, [("old", 2), ("new", 3)], {1, 4, 5}⟩ "old" "new" = some q ∧
      mlookup q.Members "new" = some 2 ∧
      mlookup q.Members "old" = none ∧
      q.Free = ({1, 4, 5} : Finset Int) ∧
      (∀ k2, k2 ≠ "old" → k2 ≠ "new" →
        mlookup q.Members k2 = mlookup [("old", (2 : Int)), ("new", 3)] k2) ∧
      (∀ x, mlookup [("old", (2 : Int)), ("new", 3)] "new" = some x →
        (∀ k, mlookup q.Members k ≠ some x) ∧ x ∉ q.Free) := by
  have hchar : ∀ (k : String) (w : Int),
      mlookup [("old", (2 : Int)), ("new", 3)] k = some w ↔
        (k = "old" ∧ w = 2) ∨ (k = "new" ∧ w = 3) := by
    intro k w
    by_cases e1 : ("old" : String) = k
    · subst e1
      simp [mlookup]
      exact eq_comm
    · by_cases e2 : ("new" : String) = k
      · subst e2
        simp [mlookup, e1]
        exact eq_comm
      · simp [mlookup, e1, e2]
        exact ⟨fun hk => absurd hk.symm e1, fun hk => absurd hk.symm e2⟩
  have hinv : PoolInv ⟨1, 5, [("old", 2), ("new", 3)], {1, 4, 5}⟩ := by
    constructor
    · intro k1 k2 w h1 h2
      rcases (hchar k1 w).mp h1 with ⟨hk1, hw1⟩ | ⟨hk1, hw1⟩ <;>
        rcases (hchar k2 w).mp h2 with ⟨hk2, hw2⟩ | ⟨hk2, hw2⟩
      · rw [hk1, hk2]
      · rw [hw1] at hw2; exact absurd hw2 (by decide)
      · rw [hw1] at hw2; exact absurd hw2 (by decide)
      · rw [hk1, hk2]
    · intro i hi
      have : i = 1 ∨ i = 4 ∨ i = 5 := by
        simpa [Finset.mem_insert] using hi
      rcases this with h | h | h <;> subst h <;> decide
  exact rename_keeps_id_and_drops_overwritten
    ⟨1, 5, [("old", 2), ("new", 3)], {1, 4, 5}⟩ "old" "new" 2 (by decide)
    (by simp [mlookup]) hinv
